import Mathlib

/-!
# Verification of the iCloud download engine (icloud-downloader.py)

Shallow embedding of the download engine: the chunked stream writer
(`_write_stream`), the per-item transfer decision (skip / fresh / resume)
inlined in `download_node` and `download_photo_asset`, the recursive drive-tree
walker (`download_node`), the photo-collection loops and the album-lookup
loops of `main`, and the `requires_dest` flag computation of `main`.

Conventions of the embedding:
- A local path is a list of path segments (`LPath`).
- The local filesystem is a partial map from paths to file contents
  (lists of bytes, bytes as `Nat`); directories are not tracked, since
  `mkdir(parents=True, exist_ok=True)` never fails and never influences any
  later decision in the source.  `mkdir` calls are recorded as trace events.
- Every observable action (directory creation, decision log lines, network
  requests with their optional `Range` header and open mode, bytes written,
  progress report lines, stderr error lines, `sys.exit`) is recorded as an
  `Ev` event in an output trace.
- Python `Optional[int]` becomes `Option Nat`; Python truthiness of such a
  value (`if expected_size:`) is `truthy`, which is false on `none` and on
  `some 0`.
-/

/-- A local filesystem path, as a list of segments. -/
abbrev LPath := List String

/-- The local filesystem: maps a path to the bytes of the file stored there,
`none` if no file exists at that path. -/
abbrev FS := LPath → Option (List Nat)

/-- Point update of the filesystem: the file at `p` now holds `c`. -/
def update (fs : FS) (p : LPath) (c : List Nat) : FS :=
  fun q => if q = p then some c else fs q

/-- Open mode of the destination file: `wb` truncates, `ab` appends. -/
inductive Mode where
  | wb
  | ab
deriving DecidableEq

/-- Observable events of a run, in order of occurrence. -/
inductive Ev where
  /-- `mkdir(parents=True, exist_ok=True)` on this path. -/
  | mkdirEv (p : LPath)
  /-- the `[skip]` log line for this destination. -/
  | skipEv (p : LPath)
  /-- the `[resume]` log line for this destination. -/
  | resumeEv (p : LPath)
  /-- the `[get ]` log line for this destination. -/
  | getEv (p : LPath)
  /-- a remote byte-stream request for this destination, with the offset of
  the `Range: bytes=<offset>-` header (`none` when no Range header is sent)
  and the mode the local file is opened with. -/
  | netEv (p : LPath) (range : Option Nat) (mode : Mode)
  /-- total number of bytes physically written into the file at `p` by one
  streaming call. -/
  | wroteEv (p : LPath) (n : Nat)
  /-- one progress report line: label and cumulative bytes counter. -/
  | progEv (label : String) (bytes : Nat)
  /-- an informational stdout line. -/
  | logEv (msg : String)
  /-- a stderr line. -/
  | errEv (msg : String)
  /-- `sys.exit(code)`. -/
  | exitEv (code : Nat)
  /-- establishment of the authenticated remote handle (`login`). -/
  | loginEv
deriving DecidableEq

/-- The three possible transfer decisions for one item. -/
inductive Decision where
  | skip
  | fresh
  | resume
deriving DecidableEq

/-- Python truthiness of an `Optional[int]`: `None` and `0` are falsy. -/
def truthy : Option Nat → Bool
  | none => false
  | some n => n != 0

/-- Python `a or b` on two `Optional[int]` values: `a` if truthy, else `b`. -/
def pyOr (a b : Option Nat) : Option Nat :=
  if truthy a then a else b

/-- Is this event one of the three per-item decision log lines
(`[skip]` / `[resume]` / `[get ]`)? -/
def isDecisionEv : Ev → Bool
  | Ev.skipEv _ => true
  | Ev.resumeEv _ => true
  | Ev.getEv _ => true
  | _ => false

/-- The subtrace of per-item decision log lines. -/
def decisions (tr : List Ev) : List Ev :=
  tr.filter isDecisionEv

/-- Bytes recorded by a `wroteEv`, `0` for any other event. -/
def writtenOf : Ev → Nat
  | Ev.wroteEv _ n => n
  | _ => 0

/-- Total number of bytes physically written over a trace. -/
def totalWritten (tr : List Ev) : Nat :=
  (tr.map writtenOf).sum

/-- Is this event a stderr line? -/
def isErrEv : Ev → Bool
  | Ev.errEv _ => true
  | _ => false

/-- Is this event a stdout log line? -/
def isLogEv : Ev → Bool
  | Ev.logEv _ => true
  | _ => false

/-- State of the `_write_stream` loop: the cumulative byte counter
(`bytes_written`, which starts at `start_size`), the next progress boundary
(`next_report`, meaningful only while a report step is active), the bytes
written to the open file handle so far, and the progress report lines emitted
so far (their cumulative byte counters, in order). -/
structure WSState where
  bytes_written : Nat
  next_report : Nat
  out : List Nat
  events : List Nat
deriving DecidableEq

/-- One iteration of the `for chunk in resp.iter_content(...)` loop of
`_write_stream`: an empty chunk is skipped (`if not chunk: continue`);
otherwise the chunk is written, the counter advances, and — when progress
reporting is active (`if report_step and bytes_written >= next_report`) — a
progress line is emitted and the boundary advances by one step. -/
def wsStep (step? : Option Nat) (s : WSState) (chunk : List Nat) : WSState :=
  if chunk.isEmpty then s
  else
    let bw := s.bytes_written + chunk.length
    let out := s.out ++ chunk
    match step? with
    | none => { s with bytes_written := bw, out := out }
    | some st =>
      if s.next_report ≤ bw then
        { bytes_written := bw, next_report := s.next_report + st,
          out := out, events := s.events ++ [bw] }
      else
        { s with bytes_written := bw, out := out }

/-- The report step of `_write_stream`: set only when
`show_progress and expected_size` is truthy, in which case it is
`max(expected_size // 20, 1_000_000)`. -/
def stepOf (show_progress : Bool) (expected_size : Option Nat) : Option Nat :=
  if show_progress && truthy expected_size then
    some (max (expected_size.getD 0 / 20) 1000000)
  else
    none

/-- `_write_stream(resp, dest_path, mode, expected_size, start_size,
show_progress, label)`: folds the chunk sequence of the response through
`wsStep`, starting from counter `start_size` and first boundary
`start_size + report_step`.  The destination path, mode and label do not
influence this loop; they are handled by the caller (the file handle's
content is the `out` component, the label is attached when the progress
lines are turned into trace events). -/
def _write_stream (chunks : List (List Nat)) (expected_size : Option Nat)
    (start_size : Nat) (show_progress : Bool) : WSState :=
  let step? := stepOf show_progress expected_size
  chunks.foldl (wsStep step?) ⟨start_size, start_size + step?.getD 0, [], []⟩

/-- The transfer decision inlined in `download_node` (lines 50–58):
skip when `dest_path.exists() and total_size is not None and
existing_size == total_size`; else resume when `resume and dest_path.exists()
and total_size and existing_size < total_size`; else fresh. -/
def driveDecision (resume existsB : Bool) (existing : Nat)
    (total_size : Option Nat) : Decision :=
  if existsB && total_size.isSome && (existing == total_size.getD 0) then
    Decision.skip
  else if resume && existsB && truthy total_size
      && decide (existing < total_size.getD 0) then
    Decision.resume
  else
    Decision.fresh

/-- The transfer decision inlined in `download_photo_asset` (lines 79–87):
identical to `driveDecision` except that the skip test uses Python truthiness
of `expected_size` (`if dest_path.exists() and expected_size and
existing_size == expected_size`) instead of `is not None`. -/
def assetDecision (resume existsB : Bool) (existing : Nat)
    (expected_size : Option Nat) : Decision :=
  if existsB && truthy expected_size && (existing == expected_size.getD 0) then
    Decision.skip
  else if resume && existsB && truthy expected_size
      && decide (existing < expected_size.getD 0) then
    Decision.resume
  else
    Decision.fresh

/-- Dispatch between the two decision procedures: `aM = true` for a media
asset (`download_photo_asset`), `false` for a drive file (`download_node`). -/
def theDecision (aM : Bool) (resume existsB : Bool) (existing : Nat)
    (expected_size : Option Nat) : Decision :=
  if aM then assetDecision resume existsB existing expected_size
  else driveDecision resume existsB existing expected_size

/-- Modelled from the spec (§6, external remote collaborator): `openStream` /
`downloadAsset` honor the byte-range header, yielding the remote content from
the requested offset; the chunking is immaterial to the engine, so the body is
served as a single chunk. -/
def responseChunks (content : List Nat) (offset : Nat) : List (List Nat) :=
  [content.drop offset]

/-- The shared per-item fetch body of `download_node` (file branch,
lines 47–65) and `download_photo_asset` (lines 70–94): create the needed
directory, stat the destination, decide skip / resume / fresh, and on a
non-skip decision request the remote stream (with `Range: bytes=<existing>-`
and append mode for resume, no header and truncate mode for fresh) and drive
it through `_write_stream`.  `content` is the full remote byte content of the
item; `mkP` is the directory that is created (`dest_path.parent` for a drive
file, `dest_dir` for an asset). -/
def fetchCore (aM : Bool) (fs : FS) (mkP p : LPath) (expected_size : Option Nat)
    (content : List Nat) (resume show_progress : Bool) (label : String) :
    FS × List Ev :=
  match theDecision aM resume (fs p).isSome ((fs p).getD []).length
      expected_size with
  | Decision.skip => (fs, [Ev.mkdirEv mkP, Ev.skipEv p])
  | Decision.resume =>
    let existing := ((fs p).getD []).length
    let ws := _write_stream (responseChunks content existing) expected_size
      existing show_progress
    (update fs p (((fs p).getD []) ++ ws.out),
      [Ev.mkdirEv mkP, Ev.resumeEv p, Ev.netEv p (some existing) Mode.ab,
        Ev.wroteEv p ws.out.length]
        ++ ws.events.map (fun b => Ev.progEv label b))
  | Decision.fresh =>
    let existing := ((fs p).getD []).length
    let ws := _write_stream (responseChunks content 0) expected_size
      existing show_progress
    (update fs p ws.out,
      [Ev.mkdirEv mkP, Ev.getEv p, Ev.netEv p none Mode.wb,
        Ev.wroteEv p ws.out.length]
        ++ ws.events.map (fun b => Ev.progEv label b))

/-- The non-folder branch of `download_node` (lines 47–65): the parent
directory is created, the decision is taken on `getattr(node, "size", None)`,
and the label of progress lines is `dest_path.name`. -/
def fetchFile (fs : FS) (p : LPath) (size : Option Nat) (content : List Nat)
    (resume show_progress : Bool) : FS × List Ev :=
  fetchCore false fs p.dropLast p size content resume show_progress
    (p.getLast?.getD "")

/-- The `original` version record of a media asset, as read by
`download_photo_asset`: only the `size` and `fileSize` keys are consulted
(`original.get("size") or original.get("fileSize")`). -/
structure OrigRec where
  size : Option Nat
  fileSize : Option Nat
deriving DecidableEq

/-- A remote media asset, as consumed by `download_photo_asset`:
`id` is always present, `filename` is `getattr(asset, "filename", None)`,
`original` is the `"original"` entry of the asset's versions mapping
(`none` models both an absent/falsy `versions` attribute and a versions
mapping without an `"original"` key — the source collapses those to `{}`),
and `content` is the remote byte content the download endpoint serves. -/
structure MediaAssetR where
  id : String
  filename : Option String
  original : Option OrigRec
  content : List Nat
deriving DecidableEq

/-- Python truthiness of an `Optional[str]`: `None` and `""` are falsy. -/
def strTruthy : Option String → Bool
  | none => false
  | some s => s != ""

/-- `expected_size = original.get("size") or original.get("fileSize")`
(line 76): a missing `original` entry reads as the empty record. -/
def assetExpected (a : MediaAssetR) : Option Nat :=
  pyOr (a.original.getD ⟨none, none⟩).size (a.original.getD ⟨none, none⟩).fileSize

/-- `name = getattr(asset, "filename", None) or f"{asset.id}.bin"` (line 71). -/
def assetName (a : MediaAssetR) : String :=
  if strTruthy a.filename then a.filename.getD "" else a.id ++ ".bin"

/-- `asset_label` (lines 97–99): the filename when truthy, else the id. -/
def asset_label (a : MediaAssetR) : String :=
  if strTruthy a.filename then a.filename.getD "" else a.id

/-- `format_album_name` (lines 102–107) on a (key, title) pair. -/
def format_album_name (key title : String) : String :=
  if key != title then title ++ " (id: " ++ key ++ ")" else title

/-- `download_photo_asset(asset, dest_dir, resume, show_progress)`
(lines 68–94): create `dest_dir`, derive the destination name and the
expected size, then run the shared fetch body in asset mode. -/
def download_photo_asset (fs : FS) (dest_dir : LPath) (a : MediaAssetR)
    (resume show_progress : Bool) : FS × List Ev :=
  fetchCore true fs dest_dir (dest_dir ++ [assetName a]) (assetExpected a)
    a.content resume show_progress (assetName a)

/-- A remote iCloud Drive node: a folder with named ordered children, or a
non-folder node (`node.type != "FOLDER"`) with an optional reported `size`
and the remote byte `content` its stream serves. -/
inductive DriveNode where
  | folder (name : String) (children : List DriveNode)
  | file (name : String) (size : Option Nat) (content : List Nat)

/-- `node.name`. -/
def DriveNode.name : DriveNode → String
  | DriveNode.folder n _ => n
  | DriveNode.file n _ _ => n

mutual
/-- `download_node(node, dest_path, resume, show_progress)` (lines 39–65):
a folder creates `dest_path` and recurses into each child at
`dest_path / child.name`, in reported order; any other node runs the
per-item fetch body. -/
def download_node (t : DriveNode) (dest : LPath) (resume show_progress : Bool)
    (fs : FS) : FS × List Ev :=
  match t with
  | DriveNode.folder _ cs =>
    let res := download_children cs dest resume show_progress fs
    (res.1, Ev.mkdirEv dest :: res.2)
  | DriveNode.file _ size content =>
    fetchFile fs dest size content resume show_progress

/-- The `for child in node:` loop of the folder branch of `download_node`
(lines 43–44), threading the filesystem left to right. -/
def download_children (cs : List DriveNode) (dest : LPath)
    (resume show_progress : Bool) (fs : FS) : FS × List Ev :=
  match cs with
  | [] => (fs, [])
  | c :: rest =>
    let r1 := download_node c (dest ++ [c.name]) resume show_progress fs
    let r2 := download_children rest dest resume show_progress r1.1
    (r2.1, r1.2 ++ r2.2)
end

/-- One flattened fetch work item: the directory created before the fetch,
the destination path, the expected size, the remote content, the progress
label, and whether the asset-mode skip test applies. -/
structure FItem where
  mkP : LPath
  path : LPath
  expected : Option Nat
  content : List Nat
  label : String
  aMode : Bool
deriving DecidableEq

/-- Run one flattened work item through the shared fetch body. -/
def FItem.fetch (i : FItem) (fs : FS) (resume show_progress : Bool) :
    FS × List Ev :=
  fetchCore i.aMode fs i.mkP i.path i.expected i.content resume show_progress
    i.label

/-- Process a list of flattened work items sequentially, threading the
filesystem and concatenating the traces. -/
def runFetch (l : List FItem) (resume show_progress : Bool) (fs : FS) :
    FS × List Ev :=
  match l with
  | [] => (fs, [])
  | i :: rest =>
    let r1 := i.fetch fs resume show_progress
    let r2 := runFetch rest resume show_progress r1.1
    (r2.1, r1.2 ++ r2.2)

/-- The flattened work item of a drive file fetched at destination `dest`. -/
def fileFItem (dest : LPath) (size : Option Nat) (content : List Nat) :
    FItem :=
  ⟨dest.dropLast, dest, size, content, dest.getLast?.getD "", false⟩

/-- The flattened work item of a media asset fetched into `dest_dir`. -/
def assetFItem (dest_dir : LPath) (a : MediaAssetR) : FItem :=
  ⟨dest_dir, dest_dir ++ [assetName a], assetExpected a, a.content,
    assetName a, true⟩

mutual
/-- The non-folder descendants of a drive node, with their destination
paths, in depth-first pre-order (children in reported order). -/
def preFiles (t : DriveNode) (dest : LPath) : List FItem :=
  match t with
  | DriveNode.folder _ cs => preFilesL cs dest
  | DriveNode.file _ size content => [fileFItem dest size content]

/-- `preFiles` over a child list, children in reported order. -/
def preFilesL (cs : List DriveNode) (dest : LPath) : List FItem :=
  match cs with
  | [] => []
  | c :: rest => preFiles c (dest ++ [c.name]) ++ preFilesL rest dest
end

/-- The `for asset in ...` download loops of `main` (lines 274–275 and
286–287): each asset of the sequence is passed to `download_photo_asset`
with the same destination directory, in order. -/
def runAssets (l : List MediaAssetR) (dest_dir : LPath)
    (resume show_progress : Bool) (fs : FS) : FS × List Ev :=
  match l with
  | [] => (fs, [])
  | a :: rest =>
    let r1 := download_photo_asset fs dest_dir a resume show_progress
    let r2 := runAssets rest dest_dir resume show_progress r1.1
    (r2.1, r1.2 ++ r2.2)

/-- The `--photos-album` download loop of `main` (lines 276–287): for each
requested name, a `KeyError` on the album lookup prints
`Album not found: <name>` to stderr and continues with the next name;
a hit logs `Downloading album: <name>` and downloads every asset of the
album into `photos_root / name`. -/
def processAlbums (names : List String)
    (albums : String → Option (List MediaAssetR)) (photos_root : LPath)
    (resume show_progress : Bool) (fs : FS) : FS × List Ev :=
  match names with
  | [] => (fs, [])
  | n :: rest =>
    match albums n with
    | none =>
      let res := processAlbums rest albums photos_root resume show_progress fs
      (res.1, Ev.errEv ("Album not found: " ++ n) :: res.2)
    | some assets =>
      let r1 := runAssets assets (photos_root ++ [n]) resume show_progress fs
      let res := processAlbums rest albums photos_root resume show_progress
        r1.1
      (res.1, (Ev.logEv ("Downloading album: " ++ n) :: r1.2) ++ res.2)

/-- The `--photos-list-album` listing loop of `main` (lines 254–264): a
lookup miss prints `Album not found: <name>` to stderr and continues; a hit
logs the album header and one line per asset label. -/
def listAlbums (names : List String)
    (albums : String → Option (List MediaAssetR)) : List Ev :=
  match names with
  | [] => []
  | n :: rest =>
    match albums n with
    | none => Ev.errEv ("Album not found: " ++ n) :: listAlbums rest albums
    | some assets =>
      (Ev.logEv ("Listing album: " ++ n)
          :: assets.map (fun a => Ev.logEv (asset_label a)))
        ++ listAlbums rest albums

/-- The parsed command-line flags of `main` that the destination rule and the
run structure depend on.  List-valued flags keep their list nature
(`action="append"`, truthy iff non-empty). -/
structure Args where
  item : List String
  photos_all : Bool
  photos_album : List String
  photos_list : Bool
  photos_list_album : List String
  photos_list_albums : Bool
  dest : Option String
  resume : Bool
  progress : Bool
deriving DecidableEq

/-- `requires_dest` (lines 209–211), with Python operator precedence:
`item or photos_all or photos_album or
(not photos_list_albums and not photos_list and not photos_list_album)`. -/
def requires_dest (a : Args) : Bool :=
  (!a.item.isEmpty) || a.photos_all || (!a.photos_album.isEmpty)
    || (!a.photos_list_albums && !a.photos_list && a.photos_list_album.isEmpty)

/-- Modelled from the spec (§9, the destination-required rule re-derived from
first principles): a destination is required iff some download operation — an
`--item`, `--photos-all`, `--photos-album`, or the default whole-drive
download that runs when no list-only flag is given — is requested. -/
def downloadRequested (a : Args) : Bool :=
  (!a.item.isEmpty) || a.photos_all || (!a.photos_album.isEmpty)
    || !(a.photos_list || (!a.photos_list_album.isEmpty)
          || a.photos_list_albums)

/-- The remote service handle, at the capability boundary the engine needs:
lookup of a drive path, the drive root listing, the full photo collection,
the album mapping, and the raw (key, title) album metadata used by
`--photos-list-albums`. -/
structure Api where
  drive : String → Option DriveNode
  driveRoot : List DriveNode
  photosAll : List MediaAssetR
  albums : String → Option (List MediaAssetR)
  albumTitles : List (String × String)

/-- The `--item` download loop of `main` (lines 236–243): a `KeyError` on
the drive lookup prints `Not found in iCloud Drive: <target>` to stderr and
continues; a hit downloads the node at `dest_root / target`. -/
def driveTargets (targets : List String) (api : Api) (destR : LPath)
    (resume show_progress : Bool) (fs : FS) : FS × List Ev :=
  match targets with
  | [] => (fs, [])
  | t :: rest =>
    match api.drive t with
    | none =>
      let res := driveTargets rest api destR resume show_progress fs
      (res.1, Ev.errEv ("Not found in iCloud Drive: " ++ t) :: res.2)
    | some node =>
      let r1 := download_node node (destR ++ [t]) resume show_progress fs
      let res := driveTargets rest api destR resume show_progress r1.1
      (res.1, r1.2 ++ res.2)

/-- The whole-root download loop of `main` (lines 246–247). -/
def driveRootRun (roots : List DriveNode) (destR : LPath)
    (resume show_progress : Bool) (fs : FS) : FS × List Ev :=
  match roots with
  | [] => (fs, [])
  | n :: rest =>
    let r1 := download_node n (destR ++ [n.name]) resume show_progress fs
    let res := driveRootRun rest destR resume show_progress r1.1
    (res.1, r1.2 ++ res.2)

/-- `main` (lines 203–289) after argument parsing, over an authenticated
`Api` handle: the `requires_dest` gate (error to stderr and `sys.exit(1)`
before any remote operation when a destination is required but absent),
then destination creation and login, the drive section, the three listing
sections, the photo download sections, and the final `Done.` line. -/
def mainRun (a : Args) (api : Api) (fs : FS) : FS × List Ev :=
  if requires_dest a && a.dest.isNone then
    (fs, [Ev.errEv "Error: --dest is required for download operations.",
      Ev.exitEv 1])
  else
    let destR : LPath := match a.dest with | some d => [d] | none => []
    let evs0 := (match a.dest with
      | some _ => [Ev.mkdirEv destR]
      | none => []) ++ [Ev.loginEv]
    let hasDrive := (!a.item.isEmpty)
      || (a.dest.isSome && !(a.photos_all || (!a.photos_album.isEmpty)
            || a.photos_list || (!a.photos_list_album.isEmpty)
            || a.photos_list_albums))
    let r1 :=
      if hasDrive then
        if !a.item.isEmpty then
          driveTargets a.item api destR a.resume a.progress fs
        else
          driveRootRun api.driveRoot destR a.resume a.progress fs
      else (fs, [])
    let evs2 :=
      (if a.photos_list then
        api.photosAll.map (fun x => Ev.logEv (asset_label x))
      else [])
      ++ (if !a.photos_list_album.isEmpty then
            listAlbums a.photos_list_album api.albums
          else [])
      ++ (if a.photos_list_albums then
            api.albumTitles.map (fun kt => Ev.logEv (format_album_name kt.1 kt.2))
          else [])
    let r2 :=
      if a.photos_all || !a.photos_album.isEmpty then
        let photosRoot := destR ++ ["Photos"]
        let rA :=
          if a.photos_all then
            runAssets api.photosAll photosRoot a.resume a.progress r1.1
          else (r1.1, [])
        let rB :=
          if !a.photos_album.isEmpty then
            processAlbums a.photos_album api.albums photosRoot a.resume
              a.progress rA.1
          else (rA.1, [])
        (rB.1, rA.2 ++ rB.2)
      else (r1.1, [])
    (r2.1, evs0 ++ r1.2 ++ evs2 ++ r2.2 ++ [Ev.logEv "Done."])

/-- The decision log line a given decision produces for a destination. -/
def decisionLog : Decision → LPath → Ev
  | Decision.skip, p => Ev.skipEv p
  | Decision.resume, p => Ev.resumeEv p
  | Decision.fresh, p => Ev.getEv p

/-- Invariant of the `_write_stream` loop while a report step `st` is active,
where `rep0` is the initial boundary (`start_size + st`): the boundary always
sits `st` past the boundary of the last emitted report, the emitted counters
are non-decreasing and bounded by the current counter, and the counter has
crossed every boundary for which a report was emitted. -/
def wsInv (rep0 st : Nat) (s : WSState) : Prop :=
  s.next_report = rep0 + st * s.events.length ∧
  List.Chain' (· ≤ ·) s.events ∧
  (∀ e ∈ s.events, e ≤ s.bytes_written) ∧
  rep0 + st * s.events.length ≤ s.bytes_written + st

theorem wsStep_bw_out (step? : Option Nat) (s : WSState) (chunk : List Nat) :
    (wsStep step? s chunk).bytes_written = s.bytes_written + chunk.length ∧
    (wsStep step? s chunk).out = s.out ++ chunk := by
  unfold wsStep
  by_cases h : chunk.isEmpty
  · simp [h, List.isEmpty_iff.mp h]
  · cases step? with
    | none => simp [h]
    | some st =>
      by_cases h2 : s.next_report ≤ s.bytes_written + chunk.length <;>
        simp [h, h2]

theorem ws_foldl_bw_out (step? : Option Nat) :
    ∀ (chunks : List (List Nat)) (s : WSState),
    ((chunks.foldl (wsStep step?) s).bytes_written
        = s.bytes_written + (chunks.map List.length).sum) ∧
    ((chunks.foldl (wsStep step?) s).out = s.out ++ chunks.flatten)
  | [], s => by simp
  | c :: rest, s => by
    have h1 := wsStep_bw_out step? s c
    have h2 := ws_foldl_bw_out step? rest (wsStep step? s c)
    simp only [List.foldl_cons, List.map_cons, List.sum_cons, List.flatten]
    refine ⟨?_, ?_⟩
    · rw [h2.1, h1.1]; omega
    · rw [h2.2, h1.2]; simp

theorem wsStep_events_none (s : WSState) (chunk : List Nat) :
    (wsStep none s chunk).events = s.events := by
  unfold wsStep
  by_cases h : chunk.isEmpty <;> simp [h]

theorem ws_foldl_events_none :
    ∀ (chunks : List (List Nat)) (s : WSState),
    (chunks.foldl (wsStep none) s).events = s.events
  | [], _ => rfl
  | c :: rest, s => by
    rw [List.foldl_cons, ws_foldl_events_none rest, wsStep_events_none]

theorem wsStep_inv {rep0 st : Nat} {s : WSState} (chunk : List Nat)
    (h : wsInv rep0 st s) : wsInv rep0 st (wsStep (some st) s chunk) := by
  obtain ⟨h1, h2, h3, h4⟩ := h
  unfold wsStep
  by_cases he : chunk.isEmpty
  · simpa [he] using ⟨h1, h2, h3, h4⟩
  · by_cases hr : s.next_report ≤ s.bytes_written + chunk.length
    · refine ⟨?_, ?_, ?_, ?_⟩ <;> simp only [he, Bool.false_eq_true,
        if_false, hr, if_true, wsInv]
      · simp only [List.length_append, List.length_singleton, h1,
          Nat.mul_succ, Nat.mul_add]
        omega
      · rw [List.chain'_append]
        refine ⟨h2, List.chain'_singleton _, ?_⟩
        intro x hx y hy
        simp only [List.head?_cons, Option.mem_def, Option.some.injEq] at hy
        obtain ⟨hne, rfl⟩ := List.mem_getLast?_eq_getLast hx
        exact le_trans (h3 _ (List.getLast_mem hne)) (by omega)
      · intro e hee
        rcases List.mem_append.mp hee with hl | hr2
        · exact le_trans (h3 _ hl) (by omega)
        · simp only [List.mem_singleton] at hr2; omega
      · simp only [List.length_append, List.length_singleton]
        rw [h1] at hr
        have : st * (s.events.length + 1) = st * s.events.length + st :=
          Nat.mul_succ st s.events.length
        omega
    · refine ⟨?_, ?_, ?_, ?_⟩ <;> simp only [he, Bool.false_eq_true,
        if_false, hr, if_true, wsInv]
      · exact h1
      · exact h2
      · intro e hee; exact le_trans (h3 _ hee) (by omega)
      · omega

theorem ws_foldl_inv (rep0 st : Nat) :
    ∀ (chunks : List (List Nat)) (s : WSState), wsInv rep0 st s →
    wsInv rep0 st (chunks.foldl (wsStep (some st)) s)
  | [], _, h => h
  | c :: rest, s, h => by
    rw [List.foldl_cons]
    exact ws_foldl_inv rep0 st rest _ (wsStep_inv c h)

theorem ws_events_nil (chunks : List (List Nat)) (e : Option Nat) (st : Nat)
    (p : Bool) (h : p = false ∨ truthy e = false) :
    (_write_stream chunks e st p).events = [] := by
  have hs : stepOf p e = none := by
    rcases h with h | h <;> simp [stepOf, h]
  unfold _write_stream
  rw [hs]
  exact ws_foldl_events_none chunks _

theorem ws_chain (chunks : List (List Nat)) (e : Option Nat) (st : Nat)
    (p : Bool) : List.Chain' (· ≤ ·) (_write_stream chunks e st p).events := by
  unfold _write_stream
  cases hs : stepOf p e with
  | none => rw [ws_foldl_events_none chunks _]; exact List.chain'_nil
  | some step =>
    have h := ws_foldl_inv (st + step) step chunks
      ⟨st, st + step, [], []⟩ (by refine ⟨by simp, ?_, ?_, by simp⟩ <;> simp)
    simpa using h.2.1

theorem ws_count (chunks : List (List Nat)) (m st : Nat) (hm : 0 < m) :
    (_write_stream chunks (some m) st true).events.length
        * max (m / 20) 1000000 ≤ (chunks.map List.length).sum := by
  have htr : truthy (some m) = true := by
    simp [truthy]; omega
  have hs : stepOf true (some m) = some (max (m / 20) 1000000) := by
    simp [stepOf, htr]
  unfold _write_stream
  rw [hs]
  simp only [Option.getD_some]
  have hinv := ws_foldl_inv (st + max (m / 20) 1000000) (max (m / 20) 1000000)
    chunks ⟨st, st + max (m / 20) 1000000, [], []⟩
    (by refine ⟨by simp, ?_, ?_, by simp⟩ <;> simp)
  have hbw := (ws_foldl_bw_out (some (max (m / 20) 1000000)) chunks
    ⟨st, st + max (m / 20) 1000000, [], []⟩).1
  simp only at hbw
  have h4 := hinv.2.2.2
  rw [hbw] at h4
  rw [Nat.mul_comm]
  omega

theorem ws_count50 (chunks : List (List Nat)) (st : Nat)
    (h : (chunks.map List.length).sum = 50000000) :
    (_write_stream chunks (some 50000000) st true).events.length ≤ 20 := by
  have hc := ws_count chunks 50000000 st (by norm_num)
  rw [h] at hc
  have hm : max (50000000 / 20) 1000000 = 2500000 := by norm_num
  rw [hm] at hc
  omega

theorem sum_filter_len (chunks : List (List Nat)) :
    (((chunks.filter (fun c => !c.isEmpty)).map List.length).sum
        = (chunks.map List.length).sum) ∧
    ((chunks.filter (fun c => !c.isEmpty)).flatten = chunks.flatten) := by
  induction chunks with
  | nil => simp
  | cons c rest ih =>
    by_cases h : c.isEmpty
    · simp [h, List.isEmpty_iff.mp h, ih.1, ih.2]
    · simp [h, ih.1, ih.2]

theorem ws_out (chunks : List (List Nat)) (e : Option Nat) (st : Nat)
    (p : Bool) : (_write_stream chunks e st p).out = chunks.flatten := by
  unfold _write_stream
  have h := (ws_foldl_bw_out (stepOf p e) chunks
    ⟨st, st + (stepOf p e).getD 0, [], []⟩).2
  simpa using h

theorem ws_bw (chunks : List (List Nat)) (e : Option Nat) (st : Nat)
    (p : Bool) : (_write_stream chunks e st p).bytes_written
      = st + (chunks.map List.length).sum := by
  unfold _write_stream
  have h := (ws_foldl_bw_out (stepOf p e) chunks
    ⟨st, st + (stepOf p e).getD 0, [], []⟩).1
  simpa using h

theorem driveDecision_skip_iff (r ex : Bool) (n : Nat) (t : Option Nat) :
    driveDecision r ex n t = Decision.skip ↔ ex = true ∧ t = some n := by
  cases t with
  | none => simp [driveDecision]
  | some m =>
    constructor
    · intro h
      unfold driveDecision at h
      split at h
      next hc =>
        simp only [Bool.and_eq_true, Option.isSome_some, beq_iff_eq,
          Option.getD_some] at hc
        exact ⟨hc.1.1, by rw [hc.2]⟩
      next =>
        split at h
        next => exact absurd h (by simp)
        next => exact absurd h (by simp)
    · rintro ⟨hex, ht⟩
      injection ht with hmn
      have hc : (ex && (some m).isSome && (n == (some m).getD 0)) = true := by
        simp [hex, hmn]
      unfold driveDecision
      rw [if_pos hc]

theorem assetDecision_skip_iff (r ex : Bool) (n : Nat) (t : Option Nat) :
    assetDecision r ex n t = Decision.skip ↔
      ex = true ∧ t = some n ∧ n ≠ 0 := by
  cases t with
  | none => simp [assetDecision, truthy]
  | some m =>
    constructor
    · intro h
      unfold assetDecision at h
      split at h
      next hc =>
        simp only [Bool.and_eq_true, truthy, bne_iff_ne, beq_iff_eq,
          Option.getD_some] at hc
        refine ⟨hc.1.1, by rw [hc.2], ?_⟩
        rw [hc.2]; exact hc.1.2
      next =>
        split at h
        next => exact absurd h (by simp)
        next => exact absurd h (by simp)
    · rintro ⟨hex, ht, hn0⟩
      injection ht with hmn
      have hc : (ex && truthy (some m) && (n == (some m).getD 0)) = true := by
        simp [hex, hmn, truthy]
        omega
      unfold assetDecision
      rw [if_pos hc]

theorem driveDecision_resume_iff (r ex : Bool) (n : Nat) (t : Option Nat) :
    driveDecision r ex n t = Decision.resume ↔
      r = true ∧ ex = true ∧ ∃ m, t = some m ∧ 0 < m ∧ n < m := by
  cases t with
  | none => simp [driveDecision]
  | some m =>
    constructor
    · intro h
      unfold driveDecision at h
      split at h
      next => exact absurd h (by simp)
      next =>
        split at h
        next hc =>
          simp only [Bool.and_eq_true, truthy, bne_iff_ne,
            decide_eq_true_eq, Option.getD_some] at hc
          exact ⟨hc.1.1.1, hc.1.1.2, m, rfl, by omega, hc.2⟩
        next => exact absurd h (by simp)
    · rintro ⟨hr, hex, m2, ht, hm0, hnm⟩
      injection ht with hmm
      subst hmm
      have hc1 : ¬((ex && (some m).isSome && (n == (some m).getD 0))
          = true) := by
        simp only [Bool.and_eq_true, Option.isSome_some, beq_iff_eq,
          Option.getD_some]
        rintro ⟨-, h2⟩
        omega
      have hc2 : (r && ex && truthy (some m)
          && decide (n < (some m).getD 0)) = true := by
        simp [hr, hex, truthy, hnm]
        omega
      unfold driveDecision
      rw [if_neg hc1, if_pos hc2]

theorem assetDecision_resume_iff (r ex : Bool) (n : Nat) (t : Option Nat) :
    assetDecision r ex n t = Decision.resume ↔
      r = true ∧ ex = true ∧ ∃ m, t = some m ∧ 0 < m ∧ n < m := by
  cases t with
  | none => simp [assetDecision, truthy]
  | some m =>
    constructor
    · intro h
      unfold assetDecision at h
      split at h
      next => exact absurd h (by simp)
      next =>
        split at h
        next hc =>
          simp only [Bool.and_eq_true, truthy, bne_iff_ne,
            decide_eq_true_eq, Option.getD_some] at hc
          exact ⟨hc.1.1.1, hc.1.1.2, m, rfl, by omega, hc.2⟩
        next => exact absurd h (by simp)
    · rintro ⟨hr, hex, m2, ht, hm0, hnm⟩
      injection ht with hmm
      subst hmm
      have hc1 : ¬((ex && truthy (some m) && (n == (some m).getD 0))
          = true) := by
        simp only [Bool.and_eq_true, truthy, bne_iff_ne, beq_iff_eq,
          Option.getD_some]
        rintro ⟨-, h2⟩
        omega
      have hc2 : (r && ex && truthy (some m)
          && decide (n < (some m).getD 0)) = true := by
        simp [hr, hex, truthy, hnm]
        omega
      unfold assetDecision
      rw [if_neg hc1, if_pos hc2]

theorem theDecision_skip_elim {aM r ex : Bool} {n : Nat} {t : Option Nat}
    (h : theDecision aM r ex n t = Decision.skip) :
    ex = true ∧ t = some n := by
  cases aM with
  | false => exact (driveDecision_skip_iff r ex n t).mp h
  | true =>
    have := (assetDecision_skip_iff r ex n t).mp h
    exact ⟨this.1, this.2.1⟩

theorem theDecision_skip_intro {aM r ex : Bool} {n : Nat} {t : Option Nat}
    (hex : ex = true) (ht : t = some n) (h0 : aM = true → n ≠ 0) :
    theDecision aM r ex n t = Decision.skip := by
  cases aM with
  | false => exact (driveDecision_skip_iff r ex n t).mpr ⟨hex, ht⟩
  | true =>
    exact (assetDecision_skip_iff r ex n t).mpr ⟨hex, ht, h0 rfl⟩

theorem theDecision_resume_elim {aM r ex : Bool} {n : Nat} {t : Option Nat}
    (h : theDecision aM r ex n t = Decision.resume) :
    r = true ∧ ex = true ∧ ∃ m, t = some m ∧ 0 < m ∧ n < m := by
  cases aM with
  | false => exact (driveDecision_resume_iff r ex n t).mp h
  | true => exact (assetDecision_resume_iff r ex n t).mp h

theorem assetDecision_fresh_of_falsy {r ex : Bool} {n : Nat} {t : Option Nat}
    (h : truthy t = false) : assetDecision r ex n t = Decision.fresh := by
  unfold assetDecision
  rw [if_neg, if_neg] <;> simp [h]

theorem fetchCore_skip_eq (aM : Bool) (fs : FS) (mkP p : LPath)
    (e : Option Nat) (content : List Nat) (r s : Bool) (lbl : String)
    (h : theDecision aM r (fs p).isSome ((fs p).getD []).length e
        = Decision.skip) :
    fetchCore aM fs mkP p e content r s lbl
      = (fs, [Ev.mkdirEv mkP, Ev.skipEv p]) := by
  unfold fetchCore
  rw [h]

theorem fetchCore_resume_facts (aM : Bool) (fs : FS) (mkP p : LPath)
    (e : Option Nat) (content : List Nat) (r s : Bool) (lbl : String)
    (h : theDecision aM r (fs p).isSome ((fs p).getD []).length e
        = Decision.resume) :
    (fetchCore aM fs mkP p e content r s lbl).1 p
        = some (((fs p).getD [])
            ++ content.drop (((fs p).getD []).length)) ∧
    Ev.netEv p (some (((fs p).getD []).length)) Mode.ab
        ∈ (fetchCore aM fs mkP p e content r s lbl).2 := by
  unfold fetchCore
  rw [h]
  constructor
  · simp [update, ws_out, responseChunks]
  · simp

theorem fetchCore_fresh_facts (aM : Bool) (fs : FS) (mkP p : LPath)
    (e : Option Nat) (content : List Nat) (r s : Bool) (lbl : String)
    (h : theDecision aM r (fs p).isSome ((fs p).getD []).length e
        = Decision.fresh) :
    (fetchCore aM fs mkP p e content r s lbl).1 p = some content ∧
    Ev.netEv p none Mode.wb ∈ (fetchCore aM fs mkP p e content r s lbl).2 := by
  unfold fetchCore
  rw [h]
  constructor
  · simp [update, ws_out, responseChunks]
  · simp

theorem fetchCore_frame (aM : Bool) (fs : FS) (mkP p : LPath)
    (e : Option Nat) (content : List Nat) (r s : Bool) (lbl : String)
    (q : LPath) (hq : q ≠ p) :
    (fetchCore aM fs mkP p e content r s lbl).1 q = fs q := by
  cases h : theDecision aM r (fs p).isSome ((fs p).getD []).length e <;>
    unfold fetchCore <;> rw [h] <;> simp [update, hq]

theorem fetchCore_post (aM : Bool) (fs : FS) (mkP p : LPath)
    (e : Option Nat) (content : List Nat) (r s : Bool) (lbl : String)
    (he : e = some content.length) :
    ∃ c, (fetchCore aM fs mkP p e content r s lbl).1 p = some c ∧
      c.length = content.length := by
  cases h : theDecision aM r (fs p).isSome ((fs p).getD []).length e with
  | skip =>
    obtain ⟨hex, hsome⟩ := theDecision_skip_elim h
    rw [fetchCore_skip_eq aM fs mkP p e content r s lbl h]
    obtain ⟨c, hc⟩ := Option.isSome_iff_exists.mp hex
    refine ⟨c, hc, ?_⟩
    rw [he] at hsome
    injection hsome with hlen
    rw [hc] at hlen
    simpa using hlen.symm
  | resume =>
    obtain ⟨-, -, m, hm, -, hnm⟩ := theDecision_resume_elim h
    rw [he] at hm
    injection hm with hlen
    refine ⟨_, (fetchCore_resume_facts aM fs mkP p e content r s lbl h).1, ?_⟩
    rw [List.length_append, List.length_drop]
    omega
  | fresh =>
    exact ⟨content, (fetchCore_fresh_facts aM fs mkP p e content r s lbl h).1,
      rfl⟩

theorem fetchCore_decisions (aM : Bool) (fs : FS) (mkP p : LPath)
    (e : Option Nat) (content : List Nat) (r s : Bool) (lbl : String) :
    decisions (fetchCore aM fs mkP p e content r s lbl).2
      = [decisionLog
          (theDecision aM r (fs p).isSome ((fs p).getD []).length e) p] := by
  cases h : theDecision aM r (fs p).isSome ((fs p).getD []).length e <;>
    unfold fetchCore <;> rw [h] <;>
    simp [decisions, decisionLog, List.filter_append, List.filter_map,
      isDecisionEv, Function.comp]

theorem fetchCore_no_err_log (aM : Bool) (fs : FS) (mkP p : LPath)
    (e : Option Nat) (content : List Nat) (r s : Bool) (lbl : String) :
    (fetchCore aM fs mkP p e content r s lbl).2.filter isErrEv = [] ∧
    (fetchCore aM fs mkP p e content r s lbl).2.filter isLogEv = [] := by
  cases h : theDecision aM r (fs p).isSome ((fs p).getD []).length e <;>
    unfold fetchCore <;> rw [h] <;>
    simp [List.filter_append, List.filter_map, isErrEv, isLogEv,
      Function.comp]

theorem decisions_append (a b : List Ev) :
    decisions (a ++ b) = decisions a ++ decisions b := by
  simp [decisions, List.filter_append]

theorem totalWritten_append (a b : List Ev) :
    totalWritten (a ++ b) = totalWritten a + totalWritten b := by
  simp [totalWritten]

theorem runFetch_append (l1 l2 : List FItem) (r s : Bool) :
    ∀ fs : FS,
    ((runFetch (l1 ++ l2) r s fs).1
        = (runFetch l2 r s (runFetch l1 r s fs).1).1) ∧
    ((runFetch (l1 ++ l2) r s fs).2
        = (runFetch l1 r s fs).2
            ++ (runFetch l2 r s (runFetch l1 r s fs).1).2) := by
  induction l1 with
  | nil => intro fs; simp [runFetch]
  | cons i rest ih =>
    intro fs
    have h := ih (i.fetch fs r s).1
    simp only [List.cons_append, runFetch]
    refine ⟨h.1, ?_⟩
    rw [show rest.append l2 = rest ++ l2 from rfl, h.2, List.append_assoc]

theorem runFetch_frame (r s : Bool) :
    ∀ (l : List FItem) (fs : FS) (q : LPath),
    (∀ i ∈ l, q ≠ i.path) → (runFetch l r s fs).1 q = fs q
  | [], _, _, _ => rfl
  | i :: rest, fs, q, h => by
    simp only [runFetch]
    rw [runFetch_frame r s rest _ q (fun j hj => h j (List.mem_cons_of_mem i hj))]
    exact fetchCore_frame i.aMode fs i.mkP i.path i.expected i.content r s
      i.label q (h i (List.mem_cons_self i rest))

theorem runFetch_sizes (r s : Bool) :
    ∀ (l : List FItem) (fs : FS),
    (∀ i ∈ l, i.expected = some i.content.length) →
    (l.map FItem.path).Nodup →
    ∀ i ∈ l, ∃ c, (runFetch l r s fs).1 i.path = some c ∧
      c.length = i.content.length
  | [], _, _, _, _, h => absurd h (List.not_mem_nil _)
  | i :: rest, fs, hsz, hnd, j, hj => by
    simp only [List.map_cons, List.nodup_cons] at hnd
    rcases List.mem_cons.mp hj with rfl | hjr
    · -- the head item: established by its own fetch, untouched afterwards
      obtain ⟨c, hc, hlen⟩ := fetchCore_post j.aMode fs j.mkP j.path
        j.expected j.content r s j.label (hsz j (List.mem_cons_self j rest))
      refine ⟨c, ?_, hlen⟩
      simp only [runFetch]
      rw [runFetch_frame r s rest _ j.path ?_]
      · exact hc
      · intro k hk hkj
        exact hnd.1 (hkj ▸ List.mem_map_of_mem FItem.path hk)
    · -- a later item: by induction on the rest
      exact runFetch_sizes r s rest _
        (fun k hk => hsz k (List.mem_cons_of_mem i hk)) hnd.2 j hjr

theorem runFetch_allSkip (r s : Bool) :
    ∀ (l : List FItem) (fs : FS),
    (∀ i ∈ l, ∃ c, fs i.path = some c ∧ i.expected = some c.length ∧
      (i.aMode = true → c.length ≠ 0)) →
    (runFetch l r s fs).1 = fs ∧
    decisions (runFetch l r s fs).2 = l.map (fun i => Ev.skipEv i.path) ∧
    totalWritten (runFetch l r s fs).2 = 0
  | [], fs, _ => by simp [runFetch, decisions, totalWritten]
  | i :: rest, fs, h => by
    obtain ⟨c, hc, hce, hc0⟩ := h i (List.mem_cons_self i rest)
    have hex : (fs i.path).isSome = true := by rw [hc]; rfl
    have hlen : ((fs i.path).getD []).length = c.length := by rw [hc]; rfl
    have hskip : theDecision i.aMode r (fs i.path).isSome
        ((fs i.path).getD []).length i.expected = Decision.skip :=
      theDecision_skip_intro hex (by rw [hlen, hce])
        (fun ha => by rw [hlen]; exact hc0 ha)
    have heq : i.fetch fs r s = (fs, [Ev.mkdirEv i.mkP, Ev.skipEv i.path]) :=
      fetchCore_skip_eq i.aMode fs i.mkP i.path i.expected i.content r s
        i.label hskip
    have ih := runFetch_allSkip r s rest fs
      (fun k hk => h k (List.mem_cons_of_mem i hk))
    simp only [runFetch, heq]
    refine ⟨ih.1, ?_, ?_⟩
    · rw [decisions_append, ih.2.1]
      simp [decisions, isDecisionEv]
    · rw [totalWritten_append, ih.2.2]
      simp [totalWritten, writtenOf]

mutual
theorem preFiles_aMode_eq :
    ∀ (t : DriveNode) (dest : LPath), ∀ i ∈ preFiles t dest, i.aMode = false
  | DriveNode.folder _ cs, dest => preFilesL_aMode_eq cs dest
  | DriveNode.file _ _ _, _ => by
    intro i hi
    simp only [preFiles, List.mem_singleton] at hi
    subst hi
    rfl

theorem preFilesL_aMode_eq :
    ∀ (cs : List DriveNode) (dest : LPath),
    ∀ i ∈ preFilesL cs dest, i.aMode = false
  | [], _ => by intro i hi; simp [preFilesL] at hi
  | c :: rest, dest => by
    intro i hi
    simp only [preFilesL] at hi
    rcases List.mem_append.mp hi with h | h
    · exact preFiles_aMode_eq c (dest ++ [c.name]) i h
    · exact preFilesL_aMode_eq rest dest i h
end

mutual
theorem download_node_flat (t : DriveNode) (dest : LPath) (r s : Bool)
    (fs : FS) :
    ((download_node t dest r s fs).1
        = (runFetch (preFiles t dest) r s fs).1) ∧
    (decisions (download_node t dest r s fs).2
        = decisions (runFetch (preFiles t dest) r s fs).2) ∧
    (totalWritten (download_node t dest r s fs).2
        = totalWritten (runFetch (preFiles t dest) r s fs).2) := by
  cases t with
  | file n sz content =>
    simp only [download_node, preFiles, runFetch, fileFItem, FItem.fetch,
      fetchFile]
    simp
  | folder n cs =>
    have h := download_children_flat cs dest r s fs
    simp only [download_node, preFiles]
    refine ⟨h.1, ?_, ?_⟩
    · rw [show decisions (Ev.mkdirEv dest
          :: (download_children cs dest r s fs).2)
          = decisions (download_children cs dest r s fs).2 by
            simp [decisions, isDecisionEv]]
      exact h.2.1
    · rw [show totalWritten (Ev.mkdirEv dest
          :: (download_children cs dest r s fs).2)
          = totalWritten (download_children cs dest r s fs).2 by
            simp [totalWritten, writtenOf]]
      exact h.2.2

theorem download_children_flat (cs : List DriveNode) (dest : LPath)
    (r s : Bool) (fs : FS) :
    ((download_children cs dest r s fs).1
        = (runFetch (preFilesL cs dest) r s fs).1) ∧
    (decisions (download_children cs dest r s fs).2
        = decisions (runFetch (preFilesL cs dest) r s fs).2) ∧
    (totalWritten (download_children cs dest r s fs).2
        = totalWritten (runFetch (preFilesL cs dest) r s fs).2) := by
  cases cs with
  | nil => simp [download_children, preFilesL, runFetch]
  | cons c rest =>
    have h1 := download_node_flat c (dest ++ [c.name]) r s fs
    have h2 := download_children_flat rest dest r s
      (download_node c (dest ++ [c.name]) r s fs).1
    have happ := runFetch_append (preFiles c (dest ++ [c.name]))
      (preFilesL rest dest) r s fs
    simp only [download_children, preFilesL]
    have hfs1 : (download_node c (dest ++ [c.name]) r s fs).1
        = (runFetch (preFiles c (dest ++ [c.name])) r s fs).1 := h1.1
    refine ⟨?_, ?_, ?_⟩
    · rw [happ.1, h2.1, hfs1]
    · rw [decisions_append, happ.2, decisions_append, h1.2.1, h2.2.1, hfs1]
    · rw [totalWritten_append, happ.2, totalWritten_append, h1.2.2, h2.2.2,
        hfs1]
end

theorem runAssets_eq_runFetch (l : List MediaAssetR) (dir : LPath)
    (r s : Bool) : ∀ fs : FS,
    runAssets l dir r s fs = runFetch (l.map (assetFItem dir)) r s fs := by
  induction l with
  | nil => intro fs; rfl
  | cons a rest ih =>
    intro fs
    simp only [runAssets, List.map_cons, runFetch]
    rw [ih]
    rfl

theorem runAssets_no_err_log (dir : LPath) (r s : Bool) :
    ∀ (l : List MediaAssetR) (fs : FS),
    ((runAssets l dir r s fs).2.filter isErrEv = []) ∧
    ((runAssets l dir r s fs).2.filter isLogEv = [])
  | [], fs => by simp [runAssets]
  | a :: rest, fs => by
    have hh := fetchCore_no_err_log true fs dir (dir ++ [assetName a])
      (assetExpected a) a.content r s (assetName a)
    have ih := runAssets_no_err_log dir r s rest
      (download_photo_asset fs dir a r s).1
    simp only [runAssets, List.filter_append, download_photo_asset]
    unfold download_photo_asset at ih
    constructor
    · rw [hh.1, ih.1]; rfl
    · rw [hh.2, ih.2]; rfl

theorem processAlbums_filters (albums : String → Option (List MediaAssetR))
    (root : LPath) (r s : Bool) :
    ∀ (names : List String) (fs : FS),
    ((processAlbums names albums root r s fs).2.filter isErrEv
        = (names.filter (fun n => (albums n).isNone)).map
            (fun n => Ev.errEv ("Album not found: " ++ n))) ∧
    ((processAlbums names albums root r s fs).2.filter isLogEv
        = (names.filter (fun n => (albums n).isSome)).map
            (fun n => Ev.logEv ("Downloading album: " ++ n)))
  | [], fs => by simp [processAlbums]
  | n :: rest, fs => by
    cases ha : albums n with
    | none =>
      have ih := processAlbums_filters albums root r s rest fs
      simp only [processAlbums, ha]
      constructor
      · simp only [List.filter_cons, isErrEv, List.filter_cons_of_pos]
        rw [ih.1]
        simp [ha, isErrEv]
      · simp only [List.filter_cons, isLogEv]
        rw [ih.2]
        simp [ha, isLogEv]
    | some assets =>
      have hr := runAssets_no_err_log (root ++ [n]) r s assets fs
      have ih := processAlbums_filters albums root r s rest
        (runAssets assets (root ++ [n]) r s fs).1
      simp only [processAlbums, ha]
      constructor
      · simp only [List.cons_append, List.filter_cons, List.filter_append]
        rw [hr.1, ih.1]
        simp [ha, isErrEv]
      · simp only [List.cons_append, List.filter_cons, List.filter_append]
        rw [hr.2, ih.2]
        simp [ha, isLogEv]

theorem listAlbums_errs (albums : String → Option (List MediaAssetR)) :
    ∀ names : List String,
    (listAlbums names albums).filter isErrEv
      = (names.filter (fun n => (albums n).isNone)).map
          (fun n => Ev.errEv ("Album not found: " ++ n))
  | [] => by simp [listAlbums]
  | n :: rest => by
    cases ha : albums n with
    | none =>
      have ih := listAlbums_errs albums rest
      simp only [listAlbums, ha, List.filter_cons]
      rw [ih]
      simp [ha, isErrEv]
    | some assets =>
      have ih := listAlbums_errs albums rest
      simp only [listAlbums, ha, List.cons_append, List.filter_cons,
        List.filter_append]
      rw [ih]
      simp [ha, isErrEv, List.filter_map, Function.comp]

/-- Trace shape of a fresh fetch: the decision log, a rangeless `wb` network
request, the written-bytes record, and the progress lines. -/
theorem fetchCore_fresh_trace (aM : Bool) (fs : FS) (mkP p : LPath)
    (e : Option Nat) (content : List Nat) (r s : Bool) (lbl : String)
    (h : theDecision aM r (fs p).isSome ((fs p).getD []).length e
        = Decision.fresh) :
    (fetchCore aM fs mkP p e content r s lbl).2
      = [Ev.mkdirEv mkP, Ev.getEv p, Ev.netEv p none Mode.wb,
          Ev.wroteEv p ((_write_stream (responseChunks content 0) e
            (((fs p).getD []).length) s).out).length]
        ++ ((_write_stream (responseChunks content 0) e
            (((fs p).getD []).length) s).events).map
              (fun b => Ev.progEv lbl b) := by
  unfold fetchCore
  rw [h]

/-- Claim C4: the Byte Sink's total — the final cumulative counter of
`_write_stream` — equals the starting offset plus the sum of the lengths of
the non-empty blocks of the chunk sequence, and exactly the non-empty blocks
are written to the file handle (empty blocks are dropped without terminating
the loop, so blocks after an empty block are still counted and written). -/
theorem write_stream_totals :
    ∀ (chunks : List (List Nat)) (e : Option Nat) (st : Nat) (p : Bool),
    ((_write_stream chunks e st p).bytes_written
      = st + ((chunks.filter (fun c => !c.isEmpty)).map List.length).sum) ∧
    ((_write_stream chunks e st p).out
      = (chunks.filter (fun c => !c.isEmpty)).flatten) := by
  intro chunks e st p
  refine ⟨?_, ?_⟩
  · rw [ws_bw, (sum_filter_len chunks).1]
  · rw [ws_out, (sum_filter_len chunks).2]

/-- Claim C5 (amended): when progress reporting is enabled and the expected
size is known **and nonzero**, `_write_stream` uses the report interval
`max(expectedSize / 20, 1_000_000)` and emits reports as the cumulative
counter crosses successive interval boundaries: at least one report once one
interval of bytes has streamed, at most `streamed / interval` reports ever
(so at most 20 over a whole 50_000_000-byte transfer), and **exactly**
`streamed / interval` reports whenever every chunk is at most one interval
long (a single chunk crossing several boundaries yields one report); the
reported counters are non-decreasing.  No report is ever emitted when
progress is disabled or the expected size is unknown — or reported as 0,
which Python truthiness treats as unknown. -/
theorem wsStep_lt (stp : Nat) (s : WSState) (chunk : List Nat)
    (hch : chunk.length ≤ stp)
    (hlt : s.bytes_written < s.next_report) :
    (wsStep (some stp) s chunk).bytes_written
      < (wsStep (some stp) s chunk).next_report := by
  unfold wsStep
  by_cases he : chunk.isEmpty
  · simpa [he] using hlt
  · by_cases hr : s.next_report ≤ s.bytes_written + chunk.length <;>
      simp only [he, Bool.false_eq_true, if_false, hr, if_true] <;> omega

theorem ws_foldl_lt (stp : Nat) :
    ∀ (chunks : List (List Nat)) (s : WSState),
    (∀ c ∈ chunks, c.length ≤ stp) →
    s.bytes_written < s.next_report →
    (chunks.foldl (wsStep (some stp)) s).bytes_written
      < (chunks.foldl (wsStep (some stp)) s).next_report
  | [], _, _, h => h
  | c :: rest, s, hch, h => by
    rw [List.foldl_cons]
    exact ws_foldl_lt stp rest _
      (fun d hd => hch d (List.mem_cons_of_mem c hd))
      (wsStep_lt stp s c (hch c (List.mem_cons_self c rest)) h)

theorem wsStep_no_event (stp rep0 : Nat) (s : WSState) (chunk : List Nat)
    (hQ : s.events = [] → s.next_report = rep0 ∧ s.bytes_written < rep0) :
    (wsStep (some stp) s chunk).events = [] →
    (wsStep (some stp) s chunk).next_report = rep0 ∧
    (wsStep (some stp) s chunk).bytes_written < rep0 := by
  unfold wsStep
  by_cases he : chunk.isEmpty
  · simpa [he] using hQ
  · by_cases hr : s.next_report ≤ s.bytes_written + chunk.length
    · intro hev
      simp only [he, Bool.false_eq_true, if_false, hr, if_true] at hev
      simp at hev
    · intro hev
      simp only [he, Bool.false_eq_true, if_false, hr, if_true] at hev ⊢
      obtain ⟨h1, h2⟩ := hQ hev
      exact ⟨h1, by omega⟩

theorem ws_foldl_no_event (stp rep0 : Nat) :
    ∀ (chunks : List (List Nat)) (s : WSState),
    (s.events = [] → s.next_report = rep0 ∧ s.bytes_written < rep0) →
    (chunks.foldl (wsStep (some stp)) s).events = [] →
    (chunks.foldl (wsStep (some stp)) s).next_report = rep0 ∧
    (chunks.foldl (wsStep (some stp)) s).bytes_written < rep0
  | [], _, hQ => hQ
  | c :: rest, s, hQ => by
    rw [List.foldl_cons]
    exact ws_foldl_no_event stp rep0 rest _ (wsStep_no_event stp rep0 s c hQ)

theorem ws_first_event (chunks : List (List Nat)) (m st : Nat) (hm : 0 < m)
    (hsum : max (m / 20) 1000000 ≤ (chunks.map List.length).sum) :
    (_write_stream chunks (some m) st true).events ≠ [] := by
  have htr : truthy (some m) = true := by
    simp [truthy]; omega
  have hs : stepOf true (some m) = some (max (m / 20) 1000000) := by
    simp [stepOf, htr]
  unfold _write_stream
  rw [hs]
  simp only [Option.getD_some]
  intro hev
  have hS : 0 < max (m / 20) 1000000 :=
    lt_of_lt_of_le (by norm_num) (Nat.le_max_right _ _)
  have hQ := ws_foldl_no_event (max (m / 20) 1000000)
    (st + max (m / 20) 1000000) chunks
    ⟨st, st + max (m / 20) 1000000, [], []⟩
    (fun _ => ⟨rfl, by show st < st + max (m / 20) 1000000; omega⟩) hev
  have hbw := (ws_foldl_bw_out (some (max (m / 20) 1000000)) chunks
    ⟨st, st + max (m / 20) 1000000, [], []⟩).1
  simp only at hbw
  rw [hbw] at hQ
  omega

theorem ws_count_exact (chunks : List (List Nat)) (m st : Nat) (hm : 0 < m)
    (hch : ∀ c ∈ chunks, c.length ≤ max (m / 20) 1000000) :
    (_write_stream chunks (some m) st true).events.length
      = (chunks.map List.length).sum / max (m / 20) 1000000 := by
  have htr : truthy (some m) = true := by
    simp [truthy]; omega
  have hs : stepOf true (some m) = some (max (m / 20) 1000000) := by
    simp [stepOf, htr]
  unfold _write_stream
  rw [hs]
  simp only [Option.getD_some]
  have hS : 0 < max (m / 20) 1000000 :=
    lt_of_lt_of_le (by norm_num) (Nat.le_max_right _ _)
  have hinv := ws_foldl_inv (st + max (m / 20) 1000000)
    (max (m / 20) 1000000) chunks ⟨st, st + max (m / 20) 1000000, [], []⟩
    (by refine ⟨by simp, ?_, ?_, by simp⟩ <;> simp)
  have hbw := (ws_foldl_bw_out (some (max (m / 20) 1000000)) chunks
    ⟨st, st + max (m / 20) 1000000, [], []⟩).1
  simp only at hbw
  have hlt := ws_foldl_lt (max (m / 20) 1000000) chunks
    ⟨st, st + max (m / 20) 1000000, [], []⟩ hch
    (by show st < st + max (m / 20) 1000000; omega)
  have h1 := hinv.1
  have h4 := hinv.2.2.2
  rw [hbw] at h4
  rw [h1, hbw] at hlt
  refine (Nat.div_eq_of_lt_le ?_ ?_).symm
  · rw [Nat.mul_comm]
    omega
  · rw [Nat.add_mul, Nat.one_mul, Nat.mul_comm]
    omega

theorem progress_cadence :
    (∀ (chunks : List (List Nat)) (e : Option Nat) (st : Nat) (p : Bool),
      p = false ∨ truthy e = false →
      (_write_stream chunks e st p).events = []) ∧
    (∀ (chunks : List (List Nat)) (e : Option Nat) (st : Nat) (p : Bool),
      List.Chain' (· ≤ ·) (_write_stream chunks e st p).events) ∧
    (∀ (chunks : List (List Nat)) (m st : Nat), 0 < m →
      (_write_stream chunks (some m) st true).events.length
          * max (m / 20) 1000000 ≤ (chunks.map List.length).sum) ∧
    (∀ (chunks : List (List Nat)) (st : Nat),
      (chunks.map List.length).sum = 50000000 →
      (_write_stream chunks (some 50000000) st true).events.length ≤ 20) ∧
    (∀ (chunks : List (List Nat)) (m st : Nat), 0 < m →
      max (m / 20) 1000000 ≤ (chunks.map List.length).sum →
      (_write_stream chunks (some m) st true).events ≠ []) ∧
    (∀ (chunks : List (List Nat)) (m st : Nat), 0 < m →
      (∀ c ∈ chunks, c.length ≤ max (m / 20) 1000000) →
      (_write_stream chunks (some m) st true).events.length
        = (chunks.map List.length).sum / max (m / 20) 1000000) :=
  ⟨ws_events_nil, ws_chain, ws_count, ws_count50, ws_first_event,
    ws_count_exact⟩

/-- Witness for `progress_cadence` at concrete inputs: an unknown-size run
emits nothing; a whole 50 MB transfer emits at most 20 reports; and a
1 MB stream at interval 1 MB emits at least one report — exactly
`1_000_000 / 1_000_000 = 1`, since its single chunk is one interval long. -/
theorem progress_cadence_witness :
    ((_write_stream [[0]] none 0 true).events = []) ∧
    ((_write_stream [List.replicate 50000000 0]
        (some 50000000) 0 true).events.length ≤ 20) ∧
    ((_write_stream [List.replicate 1000000 0] (some 1) 0 true).events
        ≠ []) ∧
    ((_write_stream [List.replicate 1000000 0] (some 1) 0 true).events.length
        = (([List.replicate 1000000 (0 : Nat)]).map List.length).sum
            / max (1 / 20) 1000000) :=
  ⟨progress_cadence.1 [[0]] none 0 true (Or.inr rfl),
   progress_cadence.2.2.2.1 [List.replicate 50000000 0] 0
     (by rw [List.map_cons, List.map_nil, List.length_replicate,
       List.sum_cons, List.sum_nil, Nat.add_zero]),
   progress_cadence.2.2.2.2.1 [List.replicate 1000000 0] 1 0 (by norm_num)
     (by rw [List.map_cons, List.map_nil, List.length_replicate,
         List.sum_cons, List.sum_nil, Nat.add_zero]
         norm_num),
   progress_cadence.2.2.2.2.2 [List.replicate 1000000 0] 1 0 (by norm_num)
     (by intro c hc
         simp only [List.mem_singleton] at hc
         subst hc
         rw [List.length_replicate]
         norm_num)⟩

/-- Counterexample to claim C5 as stated: with progress enabled and an
expected size that is *known* (`some 0`, i.e. the remote reports size 0),
a stream of 1_000_000 bytes crosses the claimed first report boundary
`start + max(expectedSize / 20, 1_000_000)`, yet the code emits no progress
event at all, because `if show_progress and expected_size:` treats 0 as
falsy. -/
theorem progress_zero_expected_counterexample :
    ((_write_stream [List.replicate 1000000 0] (some 0) 0 true).events = [])
      ∧ (some 0 : Option Nat).isSome = true
      ∧ 0 + max ((0 : Nat) / 20) 1000000
          ≤ (List.replicate 1000000 (0 : Nat)).length :=
  ⟨ws_events_nil _ _ _ _ (Or.inr rfl), rfl,
   by rw [List.length_replicate]; norm_num⟩

/-- Claim C1 (amended): a drive item's decision is Skip iff the destination
exists, the reported size is present, and the local size equals it; a media
asset's decision is Skip iff additionally the expected size is nonzero
(Python truthiness: an expected size reported as 0 is treated as unknown and
is never skipped).  Accordingly the `[skip]` log line is emitted iff the
decision is Skip. -/
theorem skip_decision_characterization :
    (∀ (r ex : Bool) (n : Nat) (t : Option Nat),
      driveDecision r ex n t = Decision.skip ↔ ex = true ∧ t = some n) ∧
    (∀ (r ex : Bool) (n : Nat) (t : Option Nat),
      assetDecision r ex n t = Decision.skip ↔
        ex = true ∧ t = some n ∧ n ≠ 0) ∧
    (∀ (fs : FS) (p : LPath) (sz : Option Nat) (content : List Nat)
        (r s : Bool),
      decisions (fetchFile fs p sz content r s).2 = [Ev.skipEv p] ↔
        driveDecision r (fs p).isSome ((fs p).getD []).length sz
          = Decision.skip) ∧
    (∀ (fs : FS) (dir : LPath) (a : MediaAssetR) (r s : Bool),
      decisions (download_photo_asset fs dir a r s).2
          = [Ev.skipEv (dir ++ [assetName a])] ↔
        assetDecision r (fs (dir ++ [assetName a])).isSome
          ((fs (dir ++ [assetName a])).getD []).length (assetExpected a)
          = Decision.skip) := by
  refine ⟨driveDecision_skip_iff, assetDecision_skip_iff, ?_, ?_⟩
  · intro fs p sz content r s
    rw [show fetchFile fs p sz content r s
      = fetchCore false fs p.dropLast p sz content r s (p.getLast?.getD "")
      from rfl]
    rw [fetchCore_decisions]
    simp only [theDecision, Bool.false_eq_true, if_false]
    cases hd : driveDecision r (fs p).isSome ((fs p).getD []).length sz <;>
      simp [decisionLog]
  · intro fs dir a r s
    rw [show download_photo_asset fs dir a r s
      = fetchCore true fs dir (dir ++ [assetName a]) (assetExpected a)
          a.content r s (assetName a) from rfl]
    rw [fetchCore_decisions]
    simp only [theDecision, if_true]
    cases hd : assetDecision r (fs (dir ++ [assetName a])).isSome
        ((fs (dir ++ [assetName a])).getD []).length (assetExpected a) <;>
      simp [decisionLog]

/-- Counterexample to claim C1 as stated: a media asset whose versions
report an original size of 0 (so the expected size is *known* and equals 0)
with an existing local file of exactly that size (an empty file) is **not**
skipped — the code downloads it fresh, because the asset skip test uses
Python truthiness of `expected_size` rather than `is not None`. -/
theorem skip_zero_size_asset_not_skipped :
    assetDecision false true 0 (some 0) = Decision.fresh ∧
    (some 0 : Option Nat).isSome = true ∧
    decisions (download_photo_asset
        (update (fun _ => none) ["Photos", "f"] []) ["Photos"]
        ⟨"x", some "f", some ⟨some 0, some 0⟩, []⟩ false false).2
      = [Ev.getEv ["Photos", "f"]] := by
  refine ⟨by decide, rfl, by decide⟩

/-- Claim C2 (amended): a non-skipped item's decision is Resume iff resuming
is enabled, the destination exists, the expected size is known and nonzero,
and `existingLocalSize < expectedSize` — the code does **not** require
`0 < existingLocalSize`, so an existing empty file is resumed from offset 0.
A Resume requests the stream with a `Range: bytes=<existingLocalSize>-`
header and appends the served suffix to the existing bytes; otherwise the
decision is Fresh: no range header, and the file is replaced by the full
served content (truncate from offset 0). -/
theorem resume_decision_characterization :
    (∀ (r ex : Bool) (n : Nat) (t : Option Nat),
      driveDecision r ex n t = Decision.resume ↔
        r = true ∧ ex = true ∧ ∃ m, t = some m ∧ 0 < m ∧ n < m) ∧
    (∀ (r ex : Bool) (n : Nat) (t : Option Nat),
      assetDecision r ex n t = Decision.resume ↔
        r = true ∧ ex = true ∧ ∃ m, t = some m ∧ 0 < m ∧ n < m) ∧
    (∀ (aM : Bool) (fs : FS) (mkP p : LPath) (e : Option Nat)
        (content : List Nat) (r s : Bool) (lbl : String),
      (theDecision aM r (fs p).isSome ((fs p).getD []).length e
          = Decision.resume →
        Ev.netEv p (some (((fs p).getD []).length)) Mode.ab
            ∈ (fetchCore aM fs mkP p e content r s lbl).2 ∧
        (fetchCore aM fs mkP p e content r s lbl).1 p
          = some (((fs p).getD [])
              ++ content.drop (((fs p).getD []).length))) ∧
      (theDecision aM r (fs p).isSome ((fs p).getD []).length e
          = Decision.fresh →
        Ev.netEv p none Mode.wb
            ∈ (fetchCore aM fs mkP p e content r s lbl).2 ∧
        (fetchCore aM fs mkP p e content r s lbl).1 p = some content)) := by
  refine ⟨driveDecision_resume_iff, assetDecision_resume_iff, ?_⟩
  intro aM fs mkP p e content r s lbl
  constructor
  · intro h
    have hf := fetchCore_resume_facts aM fs mkP p e content r s lbl h
    exact ⟨hf.2, hf.1⟩
  · intro h
    have hf := fetchCore_fresh_facts aM fs mkP p e content r s lbl h
    exact ⟨hf.2, hf.1⟩

/-- Witness for `resume_decision_characterization`: a resumed item (existing
1-byte prefix of a 3-byte file) requests `bytes=1-` in append mode and keeps
the existing prefix; a fresh item requests no range in truncate mode. -/
theorem resume_decision_witness :
    (Ev.netEv ["d", "a"] (some 1) Mode.ab
      ∈ (fetchCore false (update (fun _ => none) ["d", "a"] [7]) ["d"]
          ["d", "a"] (some 3) [7, 8, 9] true false "a").2) ∧
    (Ev.netEv ["b"] none Mode.wb
      ∈ (fetchCore false (fun _ => none) [] ["b"] none [5] false false
          "b").2) := by
  constructor
  · have h := (resume_decision_characterization.2.2 false
      (update (fun _ => none) ["d", "a"] [7]) ["d"] ["d", "a"] (some 3)
      [7, 8, 9] true false "a").1 (by decide)
    have h1 := h.1
    simpa [update] using h1
  · have h := (resume_decision_characterization.2.2 false (fun _ => none) []
      ["b"] none [5] false false "b").2 (by decide)
    simpa using h.1

/-- Counterexample to claim C2 as stated: with resume enabled and an existing
**empty** destination file (`existingLocalSize = 0`) for an item of known
size 5, the claim requires decision Fresh (since `0 < existingLocalSize`
fails), but the code decides Resume, sending `Range: bytes=0-` and opening
the file in append mode. -/
theorem resume_at_offset_zero_counterexample :
    driveDecision true true 0 (some 5) = Decision.resume ∧
    Ev.netEv ["a"] (some 0) Mode.ab
      ∈ (fetchFile (update (fun _ => none) ["a"] []) ["a"] (some 5)
          [1, 2, 3, 4, 5] true false).2 := by
  exact ⟨by decide, by decide⟩

/-- Claim C7: when the decision for an item is Skip, the fetch logs the skip
and returns immediately: the filesystem is unchanged, no network request is
made, and no bytes are written. -/
theorem skip_no_network :
    ∀ (aM : Bool) (fs : FS) (mkP p : LPath) (e : Option Nat)
      (content : List Nat) (r s : Bool) (lbl : String),
    theDecision aM r (fs p).isSome ((fs p).getD []).length e
        = Decision.skip →
    fetchCore aM fs mkP p e content r s lbl
        = (fs, [Ev.mkdirEv mkP, Ev.skipEv p]) ∧
    (fetchCore aM fs mkP p e content r s lbl).1 = fs ∧
    Ev.skipEv p ∈ (fetchCore aM fs mkP p e content r s lbl).2 ∧
    (∀ q rg m, Ev.netEv q rg m ∉ (fetchCore aM fs mkP p e content r s lbl).2)
      ∧
    (∀ q k, Ev.wroteEv q k ∉ (fetchCore aM fs mkP p e content r s lbl).2) := by
  intro aM fs mkP p e content r s lbl h
  have heq := fetchCore_skip_eq aM fs mkP p e content r s lbl h
  refine ⟨heq, by rw [heq], by rw [heq]; simp, ?_, ?_⟩
  · intro q rg m; rw [heq]; simp
  · intro q k; rw [heq]; simp

/-- Witness for `skip_no_network`: a 2-byte file whose size matches the
reported size is skipped with the filesystem returned untouched. -/
theorem skip_no_network_witness :
    fetchCore false (update (fun _ => none) ["x"] [4, 5]) [] ["x"] (some 2)
        [4, 5] false false "x"
      = (update (fun _ => none) ["x"] [4, 5],
          [Ev.mkdirEv [], Ev.skipEv ["x"]]) :=
  (skip_no_network false (update (fun _ => none) ["x"] [4, 5]) [] ["x"]
    (some 2) [4, 5] false false "x" (by decide)).1

/-- Claim C10: a media asset whose versions lack an `original` entry, or
whose `original` entry reports both `size` and `fileSize` as 0 (or absent),
has a falsy expected size: it is never skipped (whatever the local file
holds), never resumed, always fetched fresh (rangeless `wb` request), and
never produces a progress line even with progress reporting enabled. -/
theorem falsy_size_always_fresh :
    ∀ a : MediaAssetR,
    (a.original = none ∨ ∃ o, a.original = some o ∧ o.size.getD 0 = 0 ∧
      o.fileSize.getD 0 = 0) →
    truthy (assetExpected a) = false ∧
    (∀ (r ex : Bool) (n : Nat),
      assetDecision r ex n (assetExpected a) = Decision.fresh) ∧
    (∀ (fs : FS) (dir : LPath) (r s : Bool),
      Ev.netEv (dir ++ [assetName a]) none Mode.wb
          ∈ (download_photo_asset fs dir a r s).2 ∧
      (∀ lb b, Ev.progEv lb b ∉ (download_photo_asset fs dir a r s).2) ∧
      (∀ q, Ev.skipEv q ∉ (download_photo_asset fs dir a r s).2) ∧
      (∀ q off, Ev.netEv q (some off) Mode.ab
          ∉ (download_photo_asset fs dir a r s).2)) := by
  intro a h
  have hf : truthy (assetExpected a) = false := by
    rcases h with h | ⟨o, ho, h1, h2⟩
    · simp [assetExpected, h, pyOr, truthy]
    · have hs : truthy o.size = false := by
        cases hsz : o.size with
        | none => rfl
        | some k =>
          rw [hsz] at h1
          simp only [Option.getD_some] at h1
          simp [truthy, h1]
      have hfz : truthy o.fileSize = false := by
        cases hsz : o.fileSize with
        | none => rfl
        | some k =>
          rw [hsz] at h2
          simp only [Option.getD_some] at h2
          simp [truthy, h2]
      simp [assetExpected, ho, pyOr, hs, hfz]
  refine ⟨hf, fun r ex n => assetDecision_fresh_of_falsy hf, ?_⟩
  intro fs dir r s
  have hfresh : theDecision true r ((fs (dir ++ [assetName a])).isSome)
      (((fs (dir ++ [assetName a])).getD []).length) (assetExpected a)
      = Decision.fresh := by
    simp only [theDecision, if_true]
    exact assetDecision_fresh_of_falsy hf
  have htr := fetchCore_fresh_trace true fs dir (dir ++ [assetName a])
    (assetExpected a) a.content r s (assetName a) hfresh
  have hev : (_write_stream (responseChunks a.content 0) (assetExpected a)
      (((fs (dir ++ [assetName a])).getD []).length) s).events = [] :=
    ws_events_nil _ _ _ _ (Or.inr hf)
  rw [show download_photo_asset fs dir a r s
    = fetchCore true fs dir (dir ++ [assetName a]) (assetExpected a)
        a.content r s (assetName a) from rfl]
  rw [htr, hev]
  refine ⟨by simp, ?_, ?_, ?_⟩
  · intro lb b; simp
  · intro q; simp
  · intro q off; simp

/-- Witness for `falsy_size_always_fresh`: an asset with no versions record
has falsy expected size and is always decided Fresh. -/
theorem falsy_size_always_fresh_witness :
    truthy (assetExpected ⟨"x", none, none, [1, 2]⟩) = false ∧
    assetDecision true true 2 (assetExpected ⟨"x", none, none, [1, 2]⟩)
      = Decision.fresh := by
  have h := falsy_size_always_fresh ⟨"x", none, none, [1, 2]⟩ (Or.inl rfl)
  exact ⟨h.1, h.2.1 true true 2⟩

/-- Claim C6: the tree walker, on a folder, first creates the destination
directory and then recurses into each child at `destinationPath / child.name`
in the order the remote reports them, threading the filesystem left to
right; on a non-folder node it delegates to the per-item fetcher.
Consequently a walk is equivalent — in final filesystem, per-item decision
log lines, and total bytes written — to fetching the depth-first pre-order
list of its non-folder descendants (`preFiles`) one by one. -/
theorem walker_structure :
    (∀ (t : DriveNode) (dest : LPath) (r s : Bool) (fs : FS),
      ((download_node t dest r s fs).1
          = (runFetch (preFiles t dest) r s fs).1) ∧
      (decisions (download_node t dest r s fs).2
          = decisions (runFetch (preFiles t dest) r s fs).2) ∧
      (totalWritten (download_node t dest r s fs).2
          = totalWritten (runFetch (preFiles t dest) r s fs).2)) ∧
    (∀ (n : String) (cs : List DriveNode) (dest : LPath) (r s : Bool)
        (fs : FS),
      download_node (DriveNode.folder n cs) dest r s fs
        = ((download_children cs dest r s fs).1,
            Ev.mkdirEv dest :: (download_children cs dest r s fs).2)) ∧
    (∀ (n : String) (sz : Option Nat) (content : List Nat) (dest : LPath)
        (r s : Bool) (fs : FS),
      download_node (DriveNode.file n sz content) dest r s fs
        = fetchFile fs dest sz content r s) ∧
    (∀ (c : DriveNode) (cs : List DriveNode) (dest : LPath) (r s : Bool)
        (fs : FS),
      download_children (c :: cs) dest r s fs
        = ((download_children cs dest r s
              (download_node c (dest ++ [c.name]) r s fs).1).1,
            (download_node c (dest ++ [c.name]) r s fs).2
              ++ (download_children cs dest r s
                  (download_node c (dest ++ [c.name]) r s fs).1).2)) :=
  ⟨download_node_flat,
   fun _ _ _ _ _ _ => rfl,
   fun _ _ _ _ _ _ _ => rfl,
   fun _ _ _ _ _ _ => rfl⟩

/-- Claim C3 (amended): a second full run over an unchanged remote tree
decides Skip for every item and writes zero additional bytes, **provided**
every item's reported size is present and equals its remote content length
(nonzero for media assets, whose skip test treats 0 as unknown) and the
destination paths are pairwise distinct. -/
theorem second_run_skips :
    (∀ (t : DriveNode) (dest : LPath) (r s : Bool) (fs0 : FS),
      (∀ i ∈ preFiles t dest, i.expected = some i.content.length) →
      ((preFiles t dest).map FItem.path).Nodup →
      (decisions (download_node t dest r s
            (download_node t dest r s fs0).1).2
          = (preFiles t dest).map (fun i => Ev.skipEv i.path)) ∧
      (totalWritten (download_node t dest r s
            (download_node t dest r s fs0).1).2 = 0)) ∧
    (∀ (l : List MediaAssetR) (dir : LPath) (r s : Bool) (fs0 : FS),
      (∀ a ∈ l, assetExpected a = some a.content.length ∧
        a.content.length ≠ 0) →
      ((l.map (assetFItem dir)).map FItem.path).Nodup →
      (decisions (runAssets l dir r s (runAssets l dir r s fs0).1).2
          = l.map (fun a => Ev.skipEv (dir ++ [assetName a]))) ∧
      (totalWritten (runAssets l dir r s (runAssets l dir r s fs0).1).2
          = 0)) := by
  constructor
  · intro t dest r s fs0 hsz hnd
    have hflat1 := download_node_flat t dest r s fs0
    have hflat2 := download_node_flat t dest r s (download_node t dest r s fs0).1
    have hsizes := runFetch_sizes r s (preFiles t dest) fs0 hsz hnd
    have hAll : ∀ i ∈ preFiles t dest, ∃ c,
        (download_node t dest r s fs0).1 i.path = some c ∧
        i.expected = some c.length ∧ (i.aMode = true → c.length ≠ 0) := by
      intro i hi
      obtain ⟨c, hc, hlen⟩ := hsizes i hi
      refine ⟨c, by rw [hflat1.1]; exact hc, by rw [hsz i hi, hlen], ?_⟩
      intro hA
      rw [preFiles_aMode_eq t dest i hi] at hA
      exact absurd hA (by simp)
    have hskip := runFetch_allSkip r s (preFiles t dest)
      (download_node t dest r s fs0).1 hAll
    exact ⟨by rw [hflat2.2.1, hskip.2.1], by rw [hflat2.2.2, hskip.2.2]⟩
  · intro l dir r s fs0 hsz hnd
    have he : ∀ fs : FS, runAssets l dir r s fs
        = runFetch (l.map (assetFItem dir)) r s fs :=
      runAssets_eq_runFetch l dir r s
    rw [he, he]
    have hsz2 : ∀ i ∈ l.map (assetFItem dir),
        i.expected = some i.content.length := by
      intro i hi
      obtain ⟨a, ha, rfl⟩ := List.mem_map.mp hi
      simpa [assetFItem] using (hsz a ha).1
    have hsizes := runFetch_sizes r s (l.map (assetFItem dir)) fs0 hsz2 hnd
    have hAll : ∀ i ∈ l.map (assetFItem dir), ∃ c,
        (runFetch (l.map (assetFItem dir)) r s fs0).1 i.path = some c ∧
        i.expected = some c.length ∧ (i.aMode = true → c.length ≠ 0) := by
      intro i hi
      obtain ⟨c, hc, hlen⟩ := hsizes i hi
      refine ⟨c, hc, by rw [hsz2 i hi, hlen], ?_⟩
      intro hA
      rw [hlen]
      obtain ⟨a, ha, rfl⟩ := List.mem_map.mp hi
      simpa [assetFItem] using (hsz a ha).2
    have hskip := runFetch_allSkip r s (l.map (assetFItem dir))
      (runFetch (l.map (assetFItem dir)) r s fs0).1 hAll
    refine ⟨?_, hskip.2.2⟩
    rw [hskip.2.1, List.map_map]
    rfl

/-- Witness for `second_run_skips` on a one-file tree and a one-asset list:
the second run logs exactly one `[skip]` per item and writes nothing. -/
theorem second_run_skips_witness :
    ((decisions (download_node
          (DriveNode.folder "root" [DriveNode.file "a" (some 1) [9]]) ["d"]
          false false
          (download_node
            (DriveNode.folder "root" [DriveNode.file "a" (some 1) [9]]) ["d"]
            false false (fun _ => none)).1).2
        = (preFiles (DriveNode.folder "root" [DriveNode.file "a" (some 1) [9]])
            ["d"]).map (fun i => Ev.skipEv i.path)) ∧
      (totalWritten (download_node
          (DriveNode.folder "root" [DriveNode.file "a" (some 1) [9]]) ["d"]
          false false
          (download_node
            (DriveNode.folder "root" [DriveNode.file "a" (some 1) [9]]) ["d"]
            false false (fun _ => none)).1).2 = 0)) ∧
    ((decisions (runAssets [⟨"i", some "f.jpg", some ⟨some 1, none⟩, [3]⟩]
          ["P"] false false
          (runAssets [⟨"i", some "f.jpg", some ⟨some 1, none⟩, [3]⟩] ["P"]
            false false (fun _ => none)).1).2
        = [⟨"i", some "f.jpg", some ⟨some 1, none⟩, [3]⟩].map
            (fun a => Ev.skipEv (["P"] ++ [assetName a]))) ∧
      (totalWritten (runAssets [⟨"i", some "f.jpg", some ⟨some 1, none⟩, [3]⟩]
          ["P"] false false
          (runAssets [⟨"i", some "f.jpg", some ⟨some 1, none⟩, [3]⟩] ["P"]
            false false (fun _ => none)).1).2 = 0)) := by
  refine ⟨?_, ?_⟩
  · exact second_run_skips.1
      (DriveNode.folder "root" [DriveNode.file "a" (some 1) [9]]) ["d"]
      false false (fun _ => none) (by decide) (by decide)
  · exact second_run_skips.2 [⟨"i", some "f.jpg", some ⟨some 1, none⟩, [3]⟩]
      ["P"] false false (fun _ => none) (by decide) (by decide)

/-- Counterexample to claim C3 as stated: a drive file whose node reports no
size (`getattr(node, "size", None)` is `None`) is downloaded fresh on
**every** run — the second run against the unchanged remote decides Fresh
again (not Skip) and writes its one byte again, so idempotence fails without
further assumptions. -/
theorem second_run_redownloads_unknown_size :
    (decisions (download_node (DriveNode.file "a" none [7]) ["d", "a"] false
        false
        (download_node (DriveNode.file "a" none [7]) ["d", "a"] false false
          (fun _ => none)).1).2
      = [Ev.getEv ["d", "a"]]) ∧
    (totalWritten (download_node (DriveNode.file "a" none [7]) ["d", "a"]
        false false
        (download_node (DriveNode.file "a" none [7]) ["d", "a"] false false
          (fun _ => none)).1).2 = 1) := by
  exact ⟨by decide, by decide⟩

/-- Claim C8: over any requested album-name list, exactly the missing names
produce an `Album not found` stderr line, and exactly the present names are
processed (each with its `Downloading album` line), in order — a lookup miss
never stops the loop, in the download loop as in the listing loop. -/
theorem album_miss_continues :
    (∀ (names : List String) (albums : String → Option (List MediaAssetR))
        (root : LPath) (r s : Bool) (fs : FS),
      ((processAlbums names albums root r s fs).2.filter isErrEv
          = (names.filter (fun n => (albums n).isNone)).map
              (fun n => Ev.errEv ("Album not found: " ++ n))) ∧
      ((processAlbums names albums root r s fs).2.filter isLogEv
          = (names.filter (fun n => (albums n).isSome)).map
              (fun n => Ev.logEv ("Downloading album: " ++ n)))) ∧
    (∀ (names : List String) (albums : String → Option (List MediaAssetR)),
      (listAlbums names albums).filter isErrEv
        = (names.filter (fun n => (albums n).isNone)).map
            (fun n => Ev.errEv ("Album not found: " ++ n))) :=
  ⟨fun names albums root r s fs => processAlbums_filters albums root r s
      names fs,
   fun names albums => listAlbums_errs albums names⟩

/-- Claim C9: `requires_dest` coincides, for every flag combination, with
the first-principles rule "a destination is required iff some download
operation is requested" (`downloadRequested`), and when it is true with no
destination supplied, `mainRun` emits only the stderr error and `sys.exit(1)`
— in particular no login and no remote operation happens. -/
theorem requires_dest_rule :
    (∀ a : Args, requires_dest a = downloadRequested a) ∧
    (∀ (a : Args) (api : Api) (fs : FS),
      requires_dest a = true → a.dest = none →
      mainRun a api fs
        = (fs, [Ev.errEv "Error: --dest is required for download operations.",
            Ev.exitEv 1])) := by
  constructor
  · intro a
    have htaut : ∀ x y z b c d : Bool,
        (x || y || z || (!c && !b && d)) = (x || y || z || !(b || !d || c)) :=
      by decide
    exact htaut (!a.item.isEmpty) a.photos_all (!a.photos_album.isEmpty)
      a.photos_list a.photos_list_albums a.photos_list_album.isEmpty
  · intro a api fs h1 h2
    unfold mainRun
    rw [if_pos]
    rw [h1, h2]
    rfl

/-- Witness for `requires_dest_rule`: with no flags at all (the default
whole-drive download) and no destination, the run errors out at once. -/
theorem requires_dest_witness :
    mainRun ⟨[], false, [], false, [], false, none, false, false⟩
        ⟨fun _ => none, [], [], fun _ => none, []⟩ (fun _ => none)
      = ((fun _ => none : FS),
          [Ev.errEv "Error: --dest is required for download operations.",
            Ev.exitEv 1]) :=
  requires_dest_rule.2 ⟨[], false, [], false, [], false, none, false, false⟩
    ⟨fun _ => none, [], [], fun _ => none, []⟩ (fun _ => none) (by decide) rfl
